import Mathlib

/-
Verification development for the pattern-cache core of mplcairo
(src/_pattern_cache.h).  The header under src/ provides the data-model
declarations (dash_t, CacheKey, PatternEntry, PatternCache and the
signatures of convert_dash, set_dashes and PatternCache::mask); the
function bodies are not part of src/, so operational behaviour is
modelled from the specification (spec.md), faithful to its words.
Doubles are modelled as rationals (exact arithmetic); the one claim
about the bit-level byte encoding of doubles models doubles by their
64-bit patterns instead.
-/

set_option autoImplicit false

namespace MplCairo

/-- Association list lookup, modelling std::unordered_map find: returns the
value bound to the first matching key, none when absent. -/
def alookup {α β : Type} [DecidableEq α] : List (α × β) → α → Option β
  | [], _ => none
  | (k, v) :: l, a => if a = k then some v else alookup l a

/-- Association list update of an existing binding, modelling in-place
mutation of a found std::unordered_map entry. -/
def aupdate {α β : Type} [DecidableEq α] : List (α × β) → α → β → List (α × β)
  | [], _, _ => []
  | (k, v) :: l, a, b =>
      if k = a then (a, b) :: aupdate l a b else (k, v) :: aupdate l a b

theorem alookup_aupdate_self {α β : Type} [DecidableEq α]
    (l : List (α × β)) (a : α) (b : β) (v : β) (h : alookup l a = some v) :
    alookup (aupdate l a b) a = some b := by
  induction l with
  | nil => simp [alookup] at h
  | cons kv l ih =>
      obtain ⟨k, w⟩ := kv
      by_cases hk : a = k
      · subst hk
        simp [aupdate, alookup]
      · have hk2 : ¬k = a := fun e => hk e.symm
        simp only [alookup, if_neg hk] at h
        simp only [aupdate, if_neg hk2, alookup, if_neg hk]
        exact ih h

theorem alookup_cons_ne {α β : Type} [DecidableEq α]
    (l : List (α × β)) (k a : α) (v : β) (h : a ≠ k) :
    alookup ((k, v) :: l) a = alookup l a := by
  simp [alookup, h]

/- ===================== DashCodec ===================== -/

/-- Canonical dash value: phase (dash offset) plus the ordered sequence of
segment lengths; the empty sequence denotes a solid (undashed) line.
Numeric view of the dash_t of src/_pattern_cache.h line 18 with doubles
modelled as rationals. -/
structure DashValue where
  phase : ℚ
  segments : List ℚ
  deriving DecidableEq, Repr

/-- Configuration errors signalled by the dash codec. -/
inductive DashError where
  | negativeOffset
  | negativeSegment
  deriving DecidableEq, Repr

/-- The slice of drawing-context state the dash codec touches: the current
dash phase and segment array.  Other context state is an external
collaborator and out of scope. -/
structure DashCtx where
  dash : DashValue
  deriving DecidableEq, Repr

/-- Modelled from the spec: the body of `dash_t convert_dash(cairo_t*)` is
not under src/.  Spec 4.1 read: reads the current dash phase and segment
lengths of the context and returns the canonical value unmodified. -/
def convert_dash_ctx (cr : DashCtx) : DashValue :=
  cr.dash

/-- Modelled from the spec: the body of
`dash_t convert_dash(tuple<optional<double>, optional<object>>)` is not
under src/.  Spec 4.1 fromSpec: when segments is absent, return the
solid-line sentinel (empty sequence, phase 0), ignoring any supplied
offset; when present, return (offset-or-0, segments) verbatim, with a
negative offset or negative segment length rejected as a configuration
error (spec 4.1 failure clause, spec 7: signalled at conversion time,
never silently clamped). -/
def convert_dash_spec (offset : Option ℚ) (segments : Option (List ℚ)) :
    Except DashError DashValue :=
  match segments with
  | none => Except.ok ⟨0, []⟩
  | some segs =>
      let off := offset.getD 0
      if off < 0 then Except.error DashError.negativeOffset
      else if segs.any (fun q => decide (q < 0)) then
        Except.error DashError.negativeSegment
      else Except.ok ⟨off, segs⟩

/-- Modelled from the spec: the body of `set_dashes` is not under src/.
Spec 4.1 apply: sets the context dash phase and segment array from the
canonical value (a solid-line sentinel, having no segments, leaves the
context undashed); a negative phase or segment length is rejected as a
configuration error and no dash state is set from it. -/
def set_dashes (cr : DashCtx) (d : DashValue) : Except DashError DashCtx :=
  if d.phase < 0 then Except.error DashError.negativeOffset
  else if d.segments.any (fun q => decide (q < 0)) then
    Except.error DashError.negativeSegment
  else Except.ok { cr with dash := d }

/- ===================== Position quantization ===================== -/

/-- Round to nearest integer, halves away from zero on nonnegative input
(the rounding used on the nonnegative fractional part). -/
def roundNearest (t : ℚ) : ℤ :=
  ⌊t + 1 / 2⌋

/-- Modelled from the spec: step 3 of PatternCache::mask (whose body is not
under src/).  Split the coordinate into integer part ix and fractional
part fx in [0, 1); the slot index is round(fx * n_subpix), and when that
rounding produces exactly n_subpix the integer part is incremented and the
slot set to 0 (carry). -/
def quantize (n : ℕ) (x : ℚ) : ℤ × ℕ :=
  let ix := ⌊x⌋
  let fx := x - ix
  let r := roundNearest (fx * n)
  if r = n then (ix + 1, 0) else (ix, r.toNat)

/- ===================== PatternCache data model ===================== -/

/-- cairo_rectangle_t: a rectangle given by origin and extents. -/
structure CairoRect where
  x : ℚ
  y : ℚ
  width : ℚ
  height : ℚ
  deriving DecidableEq, Repr

/-- cairo_matrix_t: affine 2x3 matrix mapping path-local coordinates to
device coordinates. -/
structure CairoMatrix where
  xx : ℚ
  yx : ℚ
  xy : ℚ
  yy : ℚ
  x0 : ℚ
  y0 : ℚ
  deriving DecidableEq, Repr

/-- PatternCache::CacheKey of src/_pattern_cache.h: path identity (the
py::object reference, compared by identity and modelled by its identity
token), transform matrix, draw-function selector (the function pointer,
modelled by a stable identifier), line width and dash value. -/
structure CacheKey where
  path : ℕ
  matrix : CairoMatrix
  draw_func : ℕ
  linewidth : ℚ
  dash : DashValue
  deriving DecidableEq, Repr

/-- Modelled from the spec: the body of PatternCache::EqualTo::operator()
is not under src/.  Spec data model: CacheKey equality is exact on every
field. -/
def equalTo (lhs rhs : CacheKey) : Bool :=
  decide (lhs.path = rhs.path) && decide (lhs.matrix = rhs.matrix)
    && decide (lhs.draw_func = rhs.draw_func)
    && decide (lhs.linewidth = rhs.linewidth) && decide (lhs.dash = rhs.dash)

/-- Modelled from the spec: a rendered pattern (cairo_pattern_t) is the
deterministic result of replaying the drawing operation of the key with
the key transform, line width and dash, over a surface matching the device
bbox, at the quantized sub-pixel offset (sx / n, sy / n) (spec 4.3 step 4);
it is modelled by the tuple of those rendering inputs. -/
structure Pattern where
  key : CacheKey
  bbox : CairoRect
  sx : ℕ
  sy : ℕ
  n : ℕ
  deriving DecidableEq, Repr

/-- Rendering of one sub-pixel variant (spec 4.3 step 4). -/
def renderPattern (key : CacheKey) (bbox : CairoRect) (sx sy n : ℕ) : Pattern :=
  ⟨key, bbox, sx, sy, n⟩

/-- PatternCache::PatternEntry of src/_pattern_cache.h: bounds of the
transformed path and the grid of n_subpix * n_subpix optional pattern
handles (the raw cairo_pattern_t* array, null entries modelled by none). -/
structure PatternEntry where
  x : ℚ
  y : ℚ
  width : ℚ
  height : ℚ
  patterns : List (Option Pattern)
  deriving DecidableEq, Repr

/-- The PatternCache state of src/_pattern_cache.h: threshold_, n_subpix_,
the bbox cache bboxes_ (bounds of the non-transformed path, keyed by path
identity) and the pattern store patterns_ (keyed by CacheKey).  The
unordered_map fields are modelled by association lists. -/
structure PatternCache where
  threshold_ : ℚ
  n_subpix_ : ℕ
  bboxes_ : List (ℕ × CairoRect)
  patterns_ : List (CacheKey × PatternEntry)
  deriving DecidableEq, Repr

/-- Modelled from the spec: BoundingBoxCache.get (spec 4.2; realized by the
bboxes_ map of src/_pattern_cache.h, whose accessing code is not under
src/).  On first request for a path identity, compute the extents through
the external extents query (the geometry oracle) and store them; later
requests return the stored value.  The boolean records whether the extents
computation was invoked by this call. -/
def bboxGet (geom : ℕ → CairoRect) (s : PatternCache) (path : ℕ) :
    PatternCache × CairoRect × Bool :=
  match alookup s.bboxes_ path with
  | some r => (s, r, false)
  | none =>
      let r := geom path
      ({ s with bboxes_ := (path, r) :: s.bboxes_ }, r, true)

/-- Image of a point under the affine matrix. -/
def transformPoint (m : CairoMatrix) (px py : ℚ) : ℚ × ℚ :=
  (m.xx * px + m.xy * py + m.x0, m.yx * px + m.yy * py + m.y0)

/-- Modelled from the spec: the device-space bbox is derived by applying
the transform to the local box (spec data model); the axis-aligned image is
the min/max envelope of the four transformed corners. -/
def transformRect (m : CairoMatrix) (r : CairoRect) : CairoRect :=
  let p1 := transformPoint m r.x r.y
  let p2 := transformPoint m (r.x + r.width) r.y
  let p3 := transformPoint m r.x (r.y + r.height)
  let p4 := transformPoint m (r.x + r.width) (r.y + r.height)
  let xmin := min (min p1.1 p2.1) (min p3.1 p4.1)
  let xmax := max (max p1.1 p2.1) (max p3.1 p4.1)
  let ymin := min (min p1.2 p2.2) (min p3.2 p4.2)
  let ymax := max (max p1.2 p2.2) (max p3.2 p4.2)
  ⟨xmin, ymin, xmax - xmin, ymax - ymin⟩

/-- The fresh PatternEntry built on a store miss: the device-space bbox
(the local bbox from the bbox cache, transformed by the key matrix) and an
all-empty grid of n_subpix_ * n_subpix_ cells. -/
def freshEntry (geom : ℕ → CairoRect) (s : PatternCache) (key : CacheKey) :
    PatternEntry :=
  ⟨(transformRect key.matrix (bboxGet geom s key.path).2.1).x,
    (transformRect key.matrix (bboxGet geom s key.path).2.1).y,
    (transformRect key.matrix (bboxGet geom s key.path).2.1).width,
    (transformRect key.matrix (bboxGet geom s key.path).2.1).height,
    List.replicate (s.n_subpix_ * s.n_subpix_) none⟩

/-- The cache state after a store miss: the bbox cache possibly extended
by the bbox of the path of the key, and the fresh entry bound to the
key. -/
def createdState (geom : ℕ → CairoRect) (s : PatternCache) (key : CacheKey) :
    PatternCache :=
  { (bboxGet geom s key.path).1 with
    patterns_ := (key, freshEntry geom s key) :: (bboxGet geom s key.path).1.patterns_ }

/-- Modelled from the spec: step 1 of PatternCache::mask (body not under
src/).  If the key is already in the store, reuse its entry; otherwise
derive the device bbox from the bbox cache and the key transform and
create a new, empty entry (grid cells all empty). -/
def resolveEntry (geom : ℕ → CairoRect) (s : PatternCache) (key : CacheKey) :
    PatternCache × PatternEntry :=
  match alookup s.patterns_ key with
  | some e => (s, e)
  | none => (createdState geom s key, freshEntry geom s key)

/-- Effects of a mask call on the drawing context. -/
inductive DrawOp where
  /-- Cacheability bypass: replay the draw operation of the key directly,
  translated to (x, y), with the line width and dash of the key applied. -/
  | direct (draw_func : ℕ) (x y : ℚ) (linewidth : ℚ) (dash : DashValue)
  /-- Composite: mask the pattern onto the context at the integer offset. -/
  | maskPat (pat : Pattern) (ix iy : ℤ)
  deriving DecidableEq, Repr

/-- Result of a mask call: the new cache state, the patterns newly rendered
by the call, and the operations performed on the drawing context. -/
structure MaskResult where
  state : PatternCache
  rendered : List Pattern
  ops : List DrawOp
  deriving DecidableEq, Repr

/-- Grid index of sub-pixel slot (sx, sy) in the patterns array. -/
def gridIndex (n sx sy : ℕ) : ℕ :=
  sy * n + sx

/-- Modelled from the spec: PatternCache::mask (declared at
src/_pattern_cache.h line 57, body not under src/), following spec 4.3:
resolve the entry, bypass caching when max(bbox.width, bbox.height)
exceeds threshold, otherwise quantize the position, render the sub-pixel
variant on first access to its grid cell, and composite the pattern at the
integer offset.  An out-of-range grid index cannot arise for entries built
by this model (the grid has n_subpix * n_subpix cells and slots are in
range); that match arm is a no-op artifact. -/
def mask (geom : ℕ → CairoRect) (s : PatternCache) (key : CacheKey)
    (x y : ℚ) : MaskResult :=
  let p := resolveEntry geom s key
  let s₁ := p.1
  let entry := p.2
  if s₁.threshold_ < max entry.width entry.height then
    ⟨s₁, [], [DrawOp.direct key.draw_func x y key.linewidth key.dash]⟩
  else
    let n := s₁.n_subpix_
    let qx := quantize n x
    let qy := quantize n y
    let idx := gridIndex n qx.2 qy.2
    match entry.patterns[idx]? with
    | some (some pat) => ⟨s₁, [], [DrawOp.maskPat pat qx.1 qy.1]⟩
    | some none =>
        let pat := renderPattern key ⟨entry.x, entry.y, entry.width, entry.height⟩
          qx.2 qy.2 n
        let entry2 := { entry with patterns := entry.patterns.set idx (some pat) }
        let s₂ := { s₁ with patterns_ := aupdate s₁.patterns_ key entry2 }
        ⟨s₂, [pat], [DrawOp.maskPat pat qx.1 qy.1]⟩
    | none => ⟨s₁, [], []⟩

/-- Repeated mask calls with one fixed key at a list of positions. -/
def maskRunKey (geom : ℕ → CairoRect) (key : CacheKey) :
    List (ℚ × ℚ) → PatternCache → PatternCache × List Pattern × List DrawOp
  | [], s => (s, [], [])
  | (x, y) :: ps, s =>
      let r := mask geom s key x y
      let rest := maskRunKey geom key ps r.state
      (rest.1, r.rendered ++ rest.2.1, r.ops ++ rest.2.2)

/-- Repeated BoundingBoxCache.get calls for one fixed path identity, each
against a possibly different geometry oracle (the underlying geometry may
change between calls). -/
def bboxGetRun (path : ℕ) :
    List (ℕ → CairoRect) → PatternCache → PatternCache × List (CairoRect × Bool)
  | [], s => (s, [])
  | geom :: gs, s =>
      let r := bboxGet geom s path
      let rest := bboxGetRun path gs r.1
      (rest.1, (r.2.1, r.2.2) :: rest.2)

/-- The parameter list of the PatternCache constructor as declared at
src/_pattern_cache.h line 55: PatternCache(double threshold); -/
def patternCacheCtorParams : List String :=
  ["threshold"]

/-- Modelled from the spec: the PatternCache constructor body is not under
src/; its declaration (src/_pattern_cache.h line 55) takes the single
argument threshold.  The maps start empty (spec lifecycle: entries are
created on demand).  Neither src/ nor the spec determines the internal
initial value of n_subpix_ (the account of the spec, a second constructor
argument, contradicts the declared signature); it is modelled as a fixed
default, and no theorem below depends on its value. -/
def patternCacheInit (threshold : ℚ) : PatternCache :=
  { threshold_ := threshold
    n_subpix_ := 16
    bboxes_ := []
    patterns_ := [] }

/- ===================== Byte-level dash_t model ===================== -/

/-- Little-endian byte string of a 64-bit pattern, modelling the memory of
one double in the segment array. -/
def byteLE (p : ℕ) : List ℕ :=
  [p % 256, p / 256 % 256, p / 256 ^ 2 % 256, p / 256 ^ 3 % 256,
    p / 256 ^ 4 % 256, p / 256 ^ 5 % 256, p / 256 ^ 6 % 256, p / 256 ^ 7 % 256]

/-- Modelled from the spec: the conversion code building the std::string of
dash_t is not under src/; per the comment at src/_pattern_cache.h line 18
and the design note of spec 9, the segment double array is reinterpreted
as a byte string purely to reuse the string hash; each double contributes
its 8 bytes in order. -/
def encodeSegs (segs : List ℕ) : List ℕ :=
  (segs.map byteLE).flatten

/-- dash_t of src/_pattern_cache.h line 18:
std::tuple of the phase double and the byte string holding the segment
doubles; doubles appear through their 64-bit patterns in the byte string,
the phase through its numeric value (tuple equality compares doubles
numerically and strings byte by byte). -/
structure dash_t where
  phase : ℚ
  bytes : List ℕ
  deriving DecidableEq, Repr

/-- Build the dash_t stored for a phase and a list of segment bit
patterns. -/
def mkDash (phase : ℚ) (segs : List ℕ) : dash_t :=
  ⟨phase, encodeSegs segs⟩

/-- IEEE-754 binary64 value of a finite bit pattern (none on the exponent
2047 patterns, infinities and NaNs). -/
def numericValueFin (p : ℕ) : Option ℚ :=
  let sign : ℕ := p / 2 ^ 63 % 2
  let e : ℕ := p / 2 ^ 52 % 2 ^ 11
  let f : ℕ := p % 2 ^ 52
  if e = 2047 then none
  else
    let mag : ℚ :=
      if e = 0 then (f : ℚ) / 2 ^ 1074
      else (2 ^ 52 + (f : ℚ)) * (2 : ℚ) ^ ((e : ℤ) - 1075)
    some (if sign = 1 then -mag else mag)

theorem byteLE_length (p : ℕ) : (byteLE p).length = 8 := by
  simp [byteLE]

theorem byteLE_inj (p q : ℕ) (hp : p < 2 ^ 64) (hq : q < 2 ^ 64)
    (h : byteLE p = byteLE q) : p = q := by
  simp only [byteLE, List.cons.injEq, and_true] at h
  omega

theorem encodeSegs_inj (s1 : List ℕ) :
    ∀ s2 : List ℕ, (∀ p ∈ s1, p < 2 ^ 64) → (∀ p ∈ s2, p < 2 ^ 64) →
      encodeSegs s1 = encodeSegs s2 → s1 = s2 := by
  induction s1 with
  | nil =>
      intro s2 _ _ h
      cases s2 with
      | nil => rfl
      | cons b t =>
          exfalso
          have := congrArg List.length h
          simp [encodeSegs, byteLE] at this
  | cons a t1 ih =>
      intro s2 h1 h2 h
      cases s2 with
      | nil =>
          exfalso
          have := congrArg List.length h
          simp [encodeSegs, byteLE] at this
      | cons b t2 =>
          simp only [encodeSegs, List.map_cons, List.flatten] at h
          have hlen : (byteLE a).length = (byteLE b).length := by
            rw [byteLE_length, byteLE_length]
          obtain ⟨hhd, htl⟩ := List.append_inj h hlen
          have ha : a = b :=
            byteLE_inj a b (h1 a (by simp)) (h2 b (by simp)) hhd
          have ht : t1 = t2 :=
            ih t2 (fun p hp => h1 p (by simp [hp])) (fun p hp => h2 p (by simp [hp])) htl
          rw [ha, ht]

/- ===================== Claim theorems ===================== -/

/-- C9: for every dash specification in which the segments component is
absent, convert_dash on a dash spec returns the solid-line sentinel (empty
segment sequence, phase 0) regardless of whether an offset was supplied;
any supplied offset is ignored. -/
theorem convert_dash_spec_absent_segments (offset : Option ℚ) :
    convert_dash_spec offset none = Except.ok ⟨0, []⟩ :=
  rfl

/-- C3: for every valid dash value (phase at least 0 and every segment
length at least 0), applying it to a drawing context with set_dashes and
reading it back with convert_dash yields a dash value equal, under the
canonical dash-equality rule (structural equality of phase and segment
sequence), to the value that was applied. -/
theorem dash_apply_read_round_trip (cr : DashCtx) (d : DashValue)
    (hp : 0 ≤ d.phase) (hs : ∀ q ∈ d.segments, 0 ≤ q) :
    ∃ cr2, set_dashes cr d = Except.ok cr2 ∧ convert_dash_ctx cr2 = d := by
  have hany : d.segments.any (fun q => decide (q < 0)) = false := by
    rw [List.any_eq_false]
    intro q hq
    simpa using not_lt.mpr (hs q hq)
  refine ⟨{ cr with dash := d }, ?_, rfl⟩
  rw [set_dashes, if_neg (not_lt.mpr hp), if_neg (by simp [hany])]

theorem dash_apply_read_round_trip_witness :
    (0 : ℚ) ≤ (DashValue.mk 1 [2, 3]).phase ∧
    (∀ q ∈ (DashValue.mk 1 [2, 3]).segments, 0 ≤ q) ∧
    (∃ cr2, set_dashes ⟨⟨0, []⟩⟩ ⟨1, [2, 3]⟩ = Except.ok cr2 ∧
        convert_dash_ctx cr2 = ⟨1, [2, 3]⟩) :=
  ⟨by decide, by decide,
    dash_apply_read_round_trip ⟨⟨0, []⟩⟩ ⟨1, [2, 3]⟩ (by decide) (by decide)⟩

/-- C4 counterexample: the dash specification with offset -2 and segments
absent contains a negative offset, yet convert_dash on it does not signal
a configuration error: it returns the solid-line sentinel (the offset is
ignored, per the absent-segments rule of spec 4.1), refuting the claim
that every dash specification containing a negative offset is rejected. -/
theorem convert_dash_spec_negative_offset_not_rejected :
    convert_dash_spec (some (-2)) none = Except.ok ⟨0, []⟩ :=
  rfl

/-- C4 (amended): for every dash specification whose segments component is
present, a negative offset or a negative segment length is rejected by
convert_dash with a configuration error (no dash value is produced); and
applying a dash value with negative phase or negative segment length is
rejected by set_dashes with a configuration error (no dash state is set
from it).  When segments are absent the supplied offset, negative
included, is ignored and the solid sentinel returned. -/
theorem dash_negative_rejected (offset : Option ℚ) (segs : List ℚ)
    (cr : DashCtx) (d : DashValue) :
    ((offset.getD 0 < 0 ∨ ∃ q ∈ segs, q < 0) →
        ∃ e, convert_dash_spec offset (some segs) = Except.error e) ∧
    ((d.phase < 0 ∨ ∃ q ∈ d.segments, q < 0) →
        ∃ e, set_dashes cr d = Except.error e) := by
  constructor
  · intro h
    by_cases hoff : offset.getD 0 < 0
    · exact ⟨DashError.negativeOffset, by simp [convert_dash_spec, hoff]⟩
    · obtain ⟨q, hq, hlt⟩ := h.resolve_left hoff
      have hany : segs.any (fun q => decide (q < 0)) = true := by
        rw [List.any_eq_true]
        exact ⟨q, hq, by simpa using hlt⟩
      exact ⟨DashError.negativeSegment, by simp [convert_dash_spec, hoff, hany]⟩
  · intro h
    by_cases hph : d.phase < 0
    · exact ⟨DashError.negativeOffset, by simp [set_dashes, hph]⟩
    · obtain ⟨q, hq, hlt⟩ := h.resolve_left hph
      have hany : d.segments.any (fun q => decide (q < 0)) = true := by
        rw [List.any_eq_true]
        exact ⟨q, hq, by simpa using hlt⟩
      exact ⟨DashError.negativeSegment, by simp [set_dashes, hph, hany]⟩

theorem dash_negative_rejected_witness :
    ((Option.getD (some (-1 : ℚ)) 0 < 0 ∨ ∃ q ∈ [(-1 : ℚ)], q < 0)) ∧
    (∃ e, convert_dash_spec (some (-1)) (some [(-1 : ℚ)]) = Except.error e) ∧
    (∃ e, set_dashes ⟨⟨0, []⟩⟩ ⟨-1, []⟩ = Except.error e) :=
  ⟨Or.inl (by decide),
    (dash_negative_rejected (some (-1)) [(-1)] ⟨⟨0, []⟩⟩ ⟨-1, []⟩).1
      (Or.inl (by decide)),
    (dash_negative_rejected (some (-1)) [(-1)] ⟨⟨0, []⟩⟩ ⟨-1, []⟩).2
      (Or.inl (by decide))⟩

/-- C1: for every subpixel resolution n_subpix at least 1 and coordinate x,
the quantized slot index is always in range (below n_subpix); when rounding
the fractional part times n_subpix yields exactly n_subpix the integer
part is incremented and the slot set to 0 (carry), otherwise the integer
part is the floor and the slot the rounded value; in particular with
n_subpix = 4 the coordinate 10.9 quantizes to slot 0 with integer part 11,
not slot 4 with integer part 10. -/
theorem quantize_slot_in_range_and_carry (n : ℕ) (hn : 0 < n) (x : ℚ) :
    (quantize n x).2 < n ∧
    (roundNearest ((x - ⌊x⌋) * n) = n → quantize n x = (⌊x⌋ + 1, 0)) ∧
    (roundNearest ((x - ⌊x⌋) * n) ≠ n →
        quantize n x = (⌊x⌋, (roundNearest ((x - ⌊x⌋) * n)).toNat)) ∧
    quantize 4 (109 / 10) = (11, 0) := by
  have hfx0 : (0 : ℚ) ≤ x - ⌊x⌋ := by
    have := Int.floor_le x
    linarith
  have hfx1 : x - ⌊x⌋ < 1 := by
    have := Int.lt_floor_add_one x
    push_cast at this
    linarith
  have hn0 : (0 : ℚ) < (n : ℚ) := by exact_mod_cast hn
  have hr0 : 0 ≤ roundNearest ((x - ⌊x⌋) * n) := by
    rw [roundNearest, Int.le_floor]
    push_cast
    nlinarith
  have hrn : roundNearest ((x - ⌊x⌋) * n) ≤ (n : ℤ) := by
    rw [roundNearest]
    have hfl : ⌊(x - ⌊x⌋) * n + 1 / 2⌋ < (n : ℤ) + 1 := by
      rw [Int.floor_lt]
      push_cast
      nlinarith
    omega
  have hconc : quantize 4 (109 / 10) = (11, 0) := by
    have hfloor : ⌊(109 / 10 : ℚ)⌋ = 10 := by
      rw [Int.floor_eq_iff]
      constructor <;> norm_num
    have hround : roundNearest ((109 / 10 - (⌊(109 / 10 : ℚ)⌋ : ℚ)) * ((4 : ℕ) : ℚ)) = ((4 : ℕ) : ℤ) := by
      rw [hfloor, roundNearest]
      rw [show ((109 : ℚ) / 10 - ((10 : ℤ) : ℚ)) * ((4 : ℕ) : ℚ) + 1 / 2 = 41 / 10 by
        push_cast
        ring]
      rw [show (((4 : ℕ) : ℤ)) = 4 by norm_num]
      rw [Int.floor_eq_iff]
      constructor <;> norm_num
    rw [quantize, if_pos hround, hfloor]
    norm_num
  refine ⟨?_, ?_, ?_, hconc⟩
  · rw [quantize]
    by_cases hc : roundNearest ((x - ⌊x⌋) * n) = n
    · simp only [hc, if_pos rfl]
      exact hn
    · simp only [if_neg hc]
      have hlt : roundNearest ((x - ⌊x⌋) * n) < (n : ℤ) := lt_of_le_of_ne hrn hc
      omega
  · intro hc
    rw [quantize, if_pos hc]
  · intro hc
    rw [quantize, if_neg hc]

theorem quantize_slot_in_range_and_carry_witness :
    0 < 4 ∧ (quantize 4 (109 / 10)).2 < 4 ∧ quantize 4 (109 / 10) = (11, 0) :=
  ⟨by decide, (quantize_slot_in_range_and_carry 4 (by decide) (109 / 10)).1,
    (quantize_slot_in_range_and_carry 4 (by decide) (109 / 10)).2.2.2⟩

/-- C5: CacheKey equality is exact on every component: keys compare equal
exactly when identical in every field, so keys differing in at least one
field compare unequal and never share a cache entry; in particular two
keys identical except for LineWidth, DashValue or DrawSelector never
produce a cache hit on the entries of each other. -/
theorem cache_key_discrimination :
    (∀ lhs rhs : CacheKey, equalTo lhs rhs = true ↔ lhs = rhs) ∧
    (∀ lhs rhs : CacheKey, lhs ≠ rhs → equalTo lhs rhs = false) ∧
    (∀ (ps : List (CacheKey × PatternEntry)) (k1 k2 : CacheKey)
        (e : PatternEntry), k1 ≠ k2 →
        alookup ((k2, e) :: ps) k1 = alookup ps k1) ∧
    (∀ lhs rhs : CacheKey,
        lhs.linewidth ≠ rhs.linewidth ∨ lhs.dash ≠ rhs.dash ∨
          lhs.draw_func ≠ rhs.draw_func →
        equalTo lhs rhs = false) := by
  have h1 : ∀ lhs rhs : CacheKey, equalTo lhs rhs = true ↔ lhs = rhs := by
    intro l r
    obtain ⟨p1, m1, d1, w1, ds1⟩ := l
    obtain ⟨p2, m2, d2, w2, ds2⟩ := r
    simp [equalTo, CacheKey.mk.injEq, and_assoc]
  have h2 : ∀ lhs rhs : CacheKey, lhs ≠ rhs → equalTo lhs rhs = false := by
    intro l r hne
    cases he : equalTo l r
    · rfl
    · exact absurd ((h1 l r).mp he) hne
  refine ⟨h1, h2, ?_, ?_⟩
  · intro ps k1 k2 e hne
    exact alookup_cons_ne ps k2 k1 e hne
  · intro l r hd
    refine h2 l r (fun he => ?_)
    rcases hd with h | h | h <;> exact h (by rw [he])

theorem cache_key_discrimination_witness :
    (CacheKey.mk 0 ⟨1, 0, 0, 1, 0, 0⟩ 0 1 ⟨0, []⟩ ≠
        CacheKey.mk 0 ⟨1, 0, 0, 1, 0, 0⟩ 0 2 ⟨0, []⟩) ∧
    equalTo (CacheKey.mk 0 ⟨1, 0, 0, 1, 0, 0⟩ 0 1 ⟨0, []⟩)
        (CacheKey.mk 0 ⟨1, 0, 0, 1, 0, 0⟩ 0 2 ⟨0, []⟩) = false ∧
    alookup [(CacheKey.mk 0 ⟨1, 0, 0, 1, 0, 0⟩ 0 2 ⟨0, []⟩,
        PatternEntry.mk 0 0 1 1 [])]
      (CacheKey.mk 0 ⟨1, 0, 0, 1, 0, 0⟩ 0 1 ⟨0, []⟩) = none :=
  ⟨by decide,
    cache_key_discrimination.2.1 _ _ (by decide),
    (cache_key_discrimination.2.2.1 [] _ _ _ (by decide)).trans rfl⟩

theorem bboxGetRun_cached (p : ℕ) (r : CairoRect) (gs : List (ℕ → CairoRect)) :
    ∀ s : PatternCache, alookup s.bboxes_ p = some r →
      bboxGetRun p gs s = (s, gs.map (fun _ => (r, false))) := by
  induction gs with
  | nil =>
      intro s h
      simp [bboxGetRun]
  | cons g gs ih =>
      intro s h
      have hstep : bboxGet g s p = (s, r, false) := by
        simp [bboxGet, h]
      simp [bboxGetRun, hstep, ih s h]

/-- C6: for a fixed path identity with no cached extents yet, the first
BoundingBoxCache get call invokes the external extents query and stores
the result, and every subsequent get call with the same identity, against
any later geometry oracles (the underlying geometry may have changed),
returns the stored value bit-identically, never invoking the extents
computation again and leaving the cache state unchanged. -/
theorem bbox_memoization (geom : ℕ → CairoRect) (s : PatternCache) (p : ℕ)
    (gs : List (ℕ → CairoRect)) (h : alookup s.bboxes_ p = none) :
    (bboxGet geom s p).2.2 = true ∧
    (bboxGet geom s p).2.1 = geom p ∧
    bboxGetRun p gs (bboxGet geom s p).1 =
      ((bboxGet geom s p).1, gs.map (fun _ => (geom p, false))) := by
  have hstep : bboxGet geom s p =
      ({ s with bboxes_ := (p, geom p) :: s.bboxes_ }, geom p, true) := by
    simp [bboxGet, h]
  have hmem : alookup ({ s with bboxes_ := (p, geom p) :: s.bboxes_ } :
      PatternCache).bboxes_ p = some (geom p) := by
    simp [alookup]
  refine ⟨by rw [hstep], by rw [hstep], ?_⟩
  rw [hstep]
  exact bboxGetRun_cached p (geom p) gs _ hmem

theorem bbox_memoization_witness :
    alookup (patternCacheInit 8).bboxes_ 0 = none ∧
    (bboxGet (fun _ => ⟨0, 0, 2, 3⟩) (patternCacheInit 8) 0).2.2 = true ∧
    (bboxGet (fun _ => ⟨0, 0, 2, 3⟩) (patternCacheInit 8) 0).2.1 = ⟨0, 0, 2, 3⟩ ∧
    bboxGetRun 0 [fun _ => ⟨9, 9, 9, 9⟩]
        (bboxGet (fun _ => ⟨0, 0, 2, 3⟩) (patternCacheInit 8) 0).1 =
      ((bboxGet (fun _ => ⟨0, 0, 2, 3⟩) (patternCacheInit 8) 0).1,
        [(⟨0, 0, 2, 3⟩, false)]) :=
  ⟨rfl,
    (bbox_memoization (fun _ => ⟨0, 0, 2, 3⟩) (patternCacheInit 8) 0
        [fun _ => ⟨9, 9, 9, 9⟩] rfl).1,
    (bbox_memoization (fun _ => ⟨0, 0, 2, 3⟩) (patternCacheInit 8) 0
        [fun _ => ⟨9, 9, 9, 9⟩] rfl).2.1,
    (bbox_memoization (fun _ => ⟨0, 0, 2, 3⟩) (patternCacheInit 8) 0
        [fun _ => ⟨9, 9, 9, 9⟩] rfl).2.2⟩

theorem bboxGet_state (geom : ℕ → CairoRect) (s : PatternCache) (p : ℕ) :
    (bboxGet geom s p).1.threshold_ = s.threshold_ ∧
    (bboxGet geom s p).1.n_subpix_ = s.n_subpix_ ∧
    (bboxGet geom s p).1.patterns_ = s.patterns_ := by
  rw [bboxGet]
  cases alookup s.bboxes_ p <;> simp

theorem resolveEntry_state (geom : ℕ → CairoRect) (s : PatternCache)
    (key : CacheKey) :
    (resolveEntry geom s key).1.threshold_ = s.threshold_ ∧
    (resolveEntry geom s key).1.n_subpix_ = s.n_subpix_ := by
  rw [resolveEntry]
  cases h : alookup s.patterns_ key with
  | some e => exact ⟨rfl, rfl⟩
  | none =>
      obtain ⟨ht, hn, _⟩ := bboxGet_state geom s key.path
      exact ⟨ht, hn⟩

theorem mask_state_fields (geom : ℕ → CairoRect) (s : PatternCache)
    (key : CacheKey) (x y : ℚ) :
    (mask geom s key x y).state.threshold_ = s.threshold_ ∧
    (mask geom s key x y).state.n_subpix_ = s.n_subpix_ := by
  obtain ⟨ht, hn⟩ := resolveEntry_state geom s key
  simp only [mask]
  split
  · exact ⟨ht, hn⟩
  · split
    · exact ⟨ht, hn⟩
    · exact ⟨ht, hn⟩
    · exact ⟨ht, hn⟩

/-- C8 counterexample: the PatternCache constructor declared at
src/_pattern_cache.h line 55 is PatternCache(double threshold); its
parameter list holds threshold alone, and n_subpix is not among the
constructor arguments — refuting the claim that both threshold and
n_subpix are fixed from constructor arguments. -/
theorem pattern_cache_ctor_single_param :
    patternCacheCtorParams = ["threshold"] ∧
    "n_subpix" ∉ patternCacheCtorParams :=
  ⟨rfl, by decide⟩

/-- C8 (amended): a PatternCache is configured at construction with
threshold fixed from the single constructor argument (n_subpix_ is an
instance member fixed at construction but not supplied as a constructor
argument); construction starts with empty caches, and both threshold_ and
n_subpix_ are fixed for the whole instance lifetime: no mask call changes
them. -/
theorem pattern_cache_construction (t : ℚ) (geom : ℕ → CairoRect)
    (s : PatternCache) (key : CacheKey) (x y : ℚ) :
    (patternCacheInit t).threshold_ = t ∧
    (patternCacheInit t).bboxes_ = [] ∧
    (patternCacheInit t).patterns_ = [] ∧
    (mask geom s key x y).state.threshold_ = s.threshold_ ∧
    (mask geom s key x y).state.n_subpix_ = s.n_subpix_ :=
  ⟨rfl, rfl, rfl, (mask_state_fields geom s key x y).1,
    (mask_state_fields geom s key x y).2⟩

/-- C10: dash value equality operates on the byte encoding of the segment
doubles, not on their numeric values: two stored dash_t values compare
equal exactly when their phases are equal and their segment bit patterns
are identical, and the numerically equal but bit-distinct patterns of 0.0
(pattern 0) and -0.0 (pattern 2^63) yield dash values that compare unequal
and occupy distinct cache slots. -/
theorem dash_t_byte_equality :
    (∀ (ph1 ph2 : ℚ) (s1 s2 : List ℕ),
        (∀ p ∈ s1, p < 2 ^ 64) → (∀ p ∈ s2, p < 2 ^ 64) →
        (mkDash ph1 s1 = mkDash ph2 s2 ↔ ph1 = ph2 ∧ s1 = s2)) ∧
    numericValueFin 0 = some 0 ∧
    numericValueFin (2 ^ 63) = some 0 ∧
    (0 : ℕ) ≠ 2 ^ 63 ∧
    mkDash 0 [0] ≠ mkDash 0 [2 ^ 63] ∧
    alookup [(mkDash 0 [2 ^ 63], (0 : ℕ))] (mkDash 0 [0]) = none := by
  refine ⟨?_, by norm_num [numericValueFin], by norm_num [numericValueFin],
    by decide, by decide, by decide⟩
  intro ph1 ph2 s1 s2 h1 h2
  constructor
  · intro h
    have hph : ph1 = ph2 := congrArg dash_t.phase h
    have hby : encodeSegs s1 = encodeSegs s2 := congrArg dash_t.bytes h
    exact ⟨hph, encodeSegs_inj s1 s2 h1 h2 hby⟩
  · rintro ⟨rfl, rfl⟩
    rfl

theorem dash_t_byte_equality_witness :
    (∀ p ∈ [(1 : ℕ)], p < 2 ^ 64) ∧ (∀ p ∈ [(1 : ℕ), 2], p < 2 ^ 64) ∧
    ¬(mkDash 0 [1] = mkDash 0 [1, 2]) :=
  ⟨by decide, by decide,
    fun h => by
      have := (dash_t_byte_equality.1 0 0 [1] [1, 2] (by decide) (by decide)).mp h
      exact absurd this.2 (by decide)⟩

theorem resolveEntry_cached (geom : ℕ → CairoRect) (s : PatternCache)
    (key : CacheKey) (e : PatternEntry) (h : alookup s.patterns_ key = some e) :
    resolveEntry geom s key = (s, e) := by
  simp [resolveEntry, h]

theorem resolveEntry_new (geom : ℕ → CairoRect) (s : PatternCache)
    (key : CacheKey) (h : alookup s.patterns_ key = none) :
    resolveEntry geom s key = (createdState geom s key, freshEntry geom s key) := by
  simp [resolveEntry, h]

theorem createdState_threshold (geom : ℕ → CairoRect) (s : PatternCache)
    (key : CacheKey) :
    (createdState geom s key).threshold_ = s.threshold_ :=
  (bboxGet_state geom s key.path).1

theorem createdState_lookup (geom : ℕ → CairoRect) (s : PatternCache)
    (key : CacheKey) :
    alookup (createdState geom s key).patterns_ key = some (freshEntry geom s key) := by
  simp [createdState, alookup]

theorem mask_bypass_cached (geom : ℕ → CairoRect) (s : PatternCache)
    (key : CacheKey) (e : PatternEntry) (x y : ℚ)
    (he : alookup s.patterns_ key = some e)
    (hbig : s.threshold_ < max e.width e.height) :
    mask geom s key x y =
      ⟨s, [], [DrawOp.direct key.draw_func x y key.linewidth key.dash]⟩ := by
  simp [mask, resolveEntry_cached geom s key e he, hbig]

theorem mask_bypass_new (geom : ℕ → CairoRect) (s : PatternCache)
    (key : CacheKey) (x y : ℚ)
    (hnone : alookup s.patterns_ key = none)
    (hbig : s.threshold_ <
      max (freshEntry geom s key).width (freshEntry geom s key).height) :
    mask geom s key x y =
      ⟨createdState geom s key, [],
        [DrawOp.direct key.draw_func x y key.linewidth key.dash]⟩ := by
  have hb1 : (createdState geom s key).threshold_ <
      max (freshEntry geom s key).width (freshEntry geom s key).height := by
    rw [createdState_threshold]
    exact hbig
  simp [mask, resolveEntry_new geom s key hnone, hb1]

theorem maskRunKey_bypass (geom : ℕ → CairoRect) (key : CacheKey)
    (ps : List (ℚ × ℚ)) :
    ∀ (s : PatternCache) (e : PatternEntry),
      alookup s.patterns_ key = some e →
      s.threshold_ < max e.width e.height →
      maskRunKey geom key ps s =
        (s, [],
          ps.map (fun q => DrawOp.direct key.draw_func q.1 q.2 key.linewidth key.dash)) := by
  induction ps with
  | nil =>
      intro s e h hb
      simp [maskRunKey]
  | cons q ps ih =>
      intro s e h hb
      obtain ⟨x, y⟩ := q
      simp [maskRunKey, mask_bypass_cached geom s key e x y h hb, ih s e h hb]

/-- C2: for every CacheKey whose device-space bounding box has
max(width, height) above threshold, every mask call with that key bypasses
caching: each call replays the drawing operation directly (translated to
its position, with the line width and dash of the key applied), no
pattern is ever rendered, and the grid of the PatternEntry of the key
stays entirely empty, regardless of how many times mask is called. -/
theorem mask_threshold_bypass (geom : ℕ → CairoRect) (s : PatternCache)
    (key : CacheKey) (ps : List (ℚ × ℚ))
    (hnone : alookup s.patterns_ key = none)
    (hbig : s.threshold_ <
      max (freshEntry geom s key).width (freshEntry geom s key).height) :
    (maskRunKey geom key ps s).2.1 = [] ∧
    (maskRunKey geom key ps s).2.2 =
      ps.map (fun q => DrawOp.direct key.draw_func q.1 q.2 key.linewidth key.dash) ∧
    ∀ e, alookup (maskRunKey geom key ps s).1.patterns_ key = some e →
      ∀ o ∈ e.patterns, o = none := by
  cases ps with
  | nil =>
      refine ⟨rfl, rfl, ?_⟩
      intro e he
      rw [show (maskRunKey geom key [] s).1 = s from rfl, hnone] at he
      cases he
  | cons q ps =>
      obtain ⟨x, y⟩ := q
      have hm := mask_bypass_new geom s key x y hnone hbig
      have hlk := createdState_lookup geom s key
      have hb1 : (createdState geom s key).threshold_ <
          max (freshEntry geom s key).width (freshEntry geom s key).height := by
        rw [createdState_threshold]
        exact hbig
      have hrun := maskRunKey_bypass geom key ps (createdState geom s key)
        (freshEntry geom s key) hlk hb1
      have hstep : maskRunKey geom key ((x, y) :: ps) s =
          (createdState geom s key, [],
            DrawOp.direct key.draw_func x y key.linewidth key.dash ::
              ps.map (fun q => DrawOp.direct key.draw_func q.1 q.2 key.linewidth key.dash)) := by
        simp [maskRunKey, hm, hrun]
      refine ⟨by rw [hstep], by rw [hstep]; simp, ?_⟩
      intro e he
      rw [hstep] at he
      rw [show (createdState geom s key, ([] : List Pattern),
          DrawOp.direct key.draw_func x y key.linewidth key.dash ::
            ps.map (fun q => DrawOp.direct key.draw_func q.1 q.2 key.linewidth key.dash)).1
          = createdState geom s key from rfl] at he
      rw [hlk] at he
      cases he
      intro o ho
      rw [show (freshEntry geom s key).patterns =
          List.replicate (s.n_subpix_ * s.n_subpix_) none from rfl] at ho
      exact List.eq_of_mem_replicate ho

theorem mask_threshold_bypass_witness :
    alookup (patternCacheInit 8).patterns_
        (CacheKey.mk 0 ⟨1, 0, 0, 1, 0, 0⟩ 0 1 ⟨0, []⟩) = none ∧
    (patternCacheInit 8).threshold_ <
      max (freshEntry (fun _ => ⟨0, 0, 10, 10⟩) (patternCacheInit 8)
            (CacheKey.mk 0 ⟨1, 0, 0, 1, 0, 0⟩ 0 1 ⟨0, []⟩)).width
          (freshEntry (fun _ => ⟨0, 0, 10, 10⟩) (patternCacheInit 8)
            (CacheKey.mk 0 ⟨1, 0, 0, 1, 0, 0⟩ 0 1 ⟨0, []⟩)).height ∧
    (maskRunKey (fun _ => ⟨0, 0, 10, 10⟩)
        (CacheKey.mk 0 ⟨1, 0, 0, 1, 0, 0⟩ 0 1 ⟨0, []⟩) [(2, 3)]
        (patternCacheInit 8)).2.1 = [] ∧
    (maskRunKey (fun _ => ⟨0, 0, 10, 10⟩)
        (CacheKey.mk 0 ⟨1, 0, 0, 1, 0, 0⟩ 0 1 ⟨0, []⟩) [(2, 3)]
        (patternCacheInit 8)).2.2 =
      [DrawOp.direct 0 2 3 1 ⟨0, []⟩] :=
  ⟨rfl, by norm_num [freshEntry, bboxGet, alookup, patternCacheInit, transformRect, transformPoint],
    (mask_threshold_bypass (fun _ => ⟨0, 0, 10, 10⟩) (patternCacheInit 8)
        (CacheKey.mk 0 ⟨1, 0, 0, 1, 0, 0⟩ 0 1 ⟨0, []⟩) [(2, 3)] rfl
        (by norm_num [freshEntry, bboxGet, alookup, patternCacheInit, transformRect,
          transformPoint])).1,
    ((mask_threshold_bypass (fun _ => ⟨0, 0, 10, 10⟩) (patternCacheInit 8)
        (CacheKey.mk 0 ⟨1, 0, 0, 1, 0, 0⟩ 0 1 ⟨0, []⟩) [(2, 3)] rfl
        (by norm_num [freshEntry, bboxGet, alookup, patternCacheInit, transformRect,
          transformPoint])).2.1).trans rfl⟩

theorem mask_new_reduce (geom : ℕ → CairoRect) (s : PatternCache)
    (key : CacheKey) (x y : ℚ) (h : alookup s.patterns_ key = none) :
    mask geom s key x y = mask geom (createdState geom s key) key x y := by
  simp only [mask, resolveEntry_new geom s key h,
    resolveEntry_cached geom (createdState geom s key) key (freshEntry geom s key)
      (createdState_lookup geom s key)]

/-- The pattern rendered for the sub-pixel slot of (x, y) on entry e. -/
def slotPattern (s : PatternCache) (key : CacheKey) (e : PatternEntry)
    (x y : ℚ) : Pattern :=
  renderPattern key ⟨e.x, e.y, e.width, e.height⟩
    (quantize s.n_subpix_ x).2 (quantize s.n_subpix_ y).2 s.n_subpix_

/-- Entry e with the sub-pixel slot of (x, y) populated. -/
def slotEntry (s : PatternCache) (key : CacheKey) (e : PatternEntry)
    (x y : ℚ) : PatternEntry :=
  PatternEntry.mk e.x e.y e.width e.height
    (e.patterns.set
      (gridIndex s.n_subpix_ (quantize s.n_subpix_ x).2 (quantize s.n_subpix_ y).2)
      (some (slotPattern s key e x y)))

/-- State s with the populated entry written back for the key. -/
def slotState (s : PatternCache) (key : CacheKey) (e : PatternEntry)
    (x y : ℚ) : PatternCache :=
  PatternCache.mk s.threshold_ s.n_subpix_ s.bboxes_
    (aupdate s.patterns_ key (slotEntry s key e x y))

theorem mask_idem_of_cached (geom : ℕ → CairoRect) (s : PatternCache)
    (key : CacheKey) (e : PatternEntry) (x y : ℚ)
    (h : alookup s.patterns_ key = some e) :
    mask geom (mask geom s key x y).state key x y =
      ⟨(mask geom s key x y).state, [], (mask geom s key x y).ops⟩ := by
  have hres := resolveEntry_cached geom s key e h
  by_cases hb : s.threshold_ < max e.width e.height
  · have h1 : mask geom s key x y =
        ⟨s, [], [DrawOp.direct key.draw_func x y key.linewidth key.dash]⟩ := by
      simp [mask, hres, hb]
    rw [h1]
    exact h1
  · cases hg : e.patterns[gridIndex s.n_subpix_ (quantize s.n_subpix_ x).2
        (quantize s.n_subpix_ y).2]? with
    | none =>
        have h1 : mask geom s key x y = ⟨s, [], []⟩ := by
          simp [mask, hres, hb, hg]
        rw [h1]
        exact h1
    | some o =>
        cases o with
        | some pat =>
            have h1 : mask geom s key x y =
                ⟨s, [], [DrawOp.maskPat pat (quantize s.n_subpix_ x).1
                    (quantize s.n_subpix_ y).1]⟩ := by
              simp [mask, hres, hb, hg]
            rw [h1]
            exact h1
        | none =>
            have hlt : gridIndex s.n_subpix_ (quantize s.n_subpix_ x).2
                (quantize s.n_subpix_ y).2 < e.patterns.length := by
              by_contra hge
              rw [List.getElem?_eq_none_iff.mpr (le_of_not_lt hge)] at hg
              cases hg
            have h1 : mask geom s key x y =
                ⟨slotState s key e x y, [slotPattern s key e x y],
                  [DrawOp.maskPat (slotPattern s key e x y)
                    (quantize s.n_subpix_ x).1 (quantize s.n_subpix_ y).1]⟩ := by
              simp [mask, hres, hb, hg, slotState, slotEntry, slotPattern]
            have h2 : alookup (slotState s key e x y).patterns_ key =
                some (slotEntry s key e x y) :=
              alookup_aupdate_self s.patterns_ key (slotEntry s key e x y) e h
            have hres2 := resolveEntry_cached geom (slotState s key e x y) key
              (slotEntry s key e x y) h2
            have hb2 : ¬(slotState s key e x y).threshold_ <
                max (slotEntry s key e x y).width (slotEntry s key e x y).height := hb
            have hg2 : (slotEntry s key e x y).patterns[gridIndex s.n_subpix_
                (quantize s.n_subpix_ x).2 (quantize s.n_subpix_ y).2]? =
                some (some (slotPattern s key e x y)) :=
              List.getElem?_set_eq_of_lt (some (slotPattern s key e x y)) hlt
            rw [h1]
            show mask geom (slotState s key e x y) key x y =
              MaskResult.mk (slotState s key e x y) []
                [DrawOp.maskPat (slotPattern s key e x y)
                  (quantize s.n_subpix_ x).1 (quantize s.n_subpix_ y).1]
            have hn2 : (slotState s key e x y).n_subpix_ = s.n_subpix_ := rfl
            simp only [mask, hres2, hn2]
            rw [if_neg hb2]
            simp only [hg2]

/-- C7: for every CacheKey and position (x, y), two successive mask calls
with that identical key and identical position produce identical drawing
operations on the target context, and the second call performs no new
pattern rendering and leaves the cache (pattern store included)
unchanged. -/
theorem mask_cache_determinism (geom : ℕ → CairoRect) (s : PatternCache)
    (key : CacheKey) (x y : ℚ) :
    (mask geom (mask geom s key x y).state key x y).ops =
      (mask geom s key x y).ops ∧
    (mask geom (mask geom s key x y).state key x y).rendered = [] ∧
    (mask geom (mask geom s key x y).state key x y).state =
      (mask geom s key x y).state := by
  cases h : alookup s.patterns_ key with
  | some e =>
      rw [mask_idem_of_cached geom s key e x y h]
      exact ⟨rfl, rfl, rfl⟩
  | none =>
      rw [mask_new_reduce geom s key x y h,
        mask_idem_of_cached geom (createdState geom s key) key
          (freshEntry geom s key) x y (createdState_lookup geom s key)]
      exact ⟨rfl, rfl, rfl⟩

end MplCairo
